import Mathlib

/-!
Shallow embedding of `research/object_detection/utils/target_assigner_utils.py`
(utility functions used by the target assigner of the object-detection
research models), together with theorems settling the specification claims.

Modelling conventions:
* A float32 scalar is modelled as a real number (`ℝ`); machine rounding is
  not modelled.
* A tensor axis indexed by instances / rows / columns / channels is modelled
  as a function out of `ℕ`, together with an explicit size wherever the code
  reduces over that axis; `image_shape_to_grids`, whose whole point is the
  produced shape, is modelled with nested lists.
* A possibly-NaN float (keypoint coordinates) is modelled as `Option ℝ` with
  `none` standing for NaN: `tf.math.is_nan x` becomes `x.isNone` and
  `tf.where(not_nan, x, zeros)` becomes `x.getD 0`.
* In `coordinates_to_heatmap` the pair of steps
  `tf.reduce_max(..., axis=2)` followed by `tf.maximum(..., 0)` is modelled
  as `List.foldr max 0` over the per-instance contributions: the reduction's
  identity on an empty instance axis is -inf, which the clamp immediately
  lifts to `0`, and on a nonempty axis `foldr max 0` is exactly
  `max (reduce_max ...) 0`.
* `blackout_pixel_weights_by_box_regions` has no such clamp, so its
  reduction is modelled in `EReal` by `List.foldr max ⊥`, where `⊥` is the
  value `tf.reduce_max` takes on an empty instance axis (the source itself
  documents this semantics: "Maximum of an empty tensor is -inf").
-/

noncomputable section

namespace TargetAssignerUtils

/-- Embedding of `image_shape_to_grids`: `tf.range` over each dimension and
`tf.meshgrid(x_range, y_range, indexing='xy')`, returning `(y_grid, x_grid)`,
each of shape `[height, width]` as a list of rows. -/
def image_shape_to_grids (height width : ℕ) : List (List ℝ) × List (List ℝ) :=
  let x_range : List ℝ := (List.range width).map (Nat.cast : ℕ → ℝ)
  let y_range : List ℝ := (List.range height).map (Nat.cast : ℕ → ℝ)
  let x_grid : List (List ℝ) := y_range.map (fun _ => x_range)
  let y_grid : List (List ℝ) := y_range.map (fun y => x_range.map (fun _ => y))
  (y_grid, x_grid)

/-- Entry `y_grid[r][c]` of the grid pair produced by `image_shape_to_grids`
(out-of-range reads default to `0`, which the theorems never rely on). -/
def yGridVal (height width r c : ℕ) : ℝ :=
  (((image_shape_to_grids height width).1.getD r []).getD c 0)

/-- Entry `x_grid[r][c]` of the grid pair produced by `image_shape_to_grids`. -/
def xGridVal (height width r c : ℕ) : ℝ :=
  (((image_shape_to_grids height width).2.getD r []).getD c 0)

/-- Embedding of `compute_floor_offsets_with_indices`: the source coordinates
are floored (`tf.floor`), optional targets default to the sources, offsets are
`target - floored source`, and indices are the floored sources cast to
integers. The first component of the result holds the `[num_points, 2]`
offsets `(y, x)`, the second the `[num_points, 2]` integer indices `(y, x)`. -/
def compute_floor_offsets_with_indices (y_source x_source : ℕ → ℝ)
    (y_target x_target : Option (ℕ → ℝ) := none) :
    (ℕ → ℝ × ℝ) × (ℕ → ℤ × ℤ) :=
  let y_source_floored : ℕ → ℝ := fun j => (⌊y_source j⌋ : ℝ)
  let x_source_floored : ℕ → ℝ := fun j => (⌊x_source j⌋ : ℝ)
  let yt : ℕ → ℝ := y_target.getD y_source
  let xt : ℕ → ℝ := x_target.getD x_source
  let y_offset : ℕ → ℝ := fun j => yt j - y_source_floored j
  let x_offset : ℕ → ℝ := fun j => xt j - x_source_floored j
  let y_source_indices : ℕ → ℤ := fun j => ⌊y_source j⌋
  let x_source_indices : ℕ → ℤ := fun j => ⌊x_source j⌋
  (fun j => (y_offset j, x_offset j),
   fun j => (y_source_indices j, x_source_indices j))

/-- Embedding of the per-instance Gaussian kernel of `coordinates_to_heatmap`:
`x_diff = x_grid - floor(x_coordinates)`, `y_diff = y_grid - floor(y_coordinates)`,
`squared_distance = x_diff**2 + y_diff**2`, and
`gaussian_map = exp(-squared_distance / (2 * sigma * sigma))`, evaluated for
instance `i` at pixel `(r, c)`. -/
def gaussian_map (y_grid x_grid : ℕ → ℕ → ℝ)
    (y_coordinates x_coordinates sigma : ℕ → ℝ) (i r c : ℕ) : ℝ :=
  let x_diff : ℝ := x_grid r c - (⌊x_coordinates i⌋ : ℝ)
  let y_diff : ℝ := y_grid r c - (⌊y_coordinates i⌋ : ℝ)
  let squared_distance : ℝ := x_diff ^ 2 + y_diff ^ 2
  Real.exp (-squared_distance / (2 * sigma i * sigma i))

/-- Embedding of the `[height, width, num_instances, num_channels]`
intermediate of `coordinates_to_heatmap`: the Gaussian response of instance
`i`, scattered into channel `ch` by `channel_onehot` and, when
`channel_weights` is given, multiplied by the instance weight. -/
def gaussian_per_box_per_class_map (y_grid x_grid : ℕ → ℕ → ℝ)
    (y_coordinates x_coordinates sigma : ℕ → ℝ)
    (channel_onehot : ℕ → ℕ → ℝ) (channel_weights : Option (ℕ → ℝ))
    (i r c ch : ℕ) : ℝ :=
  match channel_weights with
  | none =>
      gaussian_map y_grid x_grid y_coordinates x_coordinates sigma i r c *
        channel_onehot i ch
  | some w =>
      gaussian_map y_grid x_grid y_coordinates x_coordinates sigma i r c *
        channel_onehot i ch * w i

/-- Embedding of `coordinates_to_heatmap` at pixel `(r, c)` and channel `ch`:
`tf.reduce_max` over the instance axis followed by `tf.maximum(·, 0)`,
modelled as `List.foldr max 0` over the per-instance contributions
(`0` is exactly what the clamp produces from the empty-axis value -inf, and
on a nonempty axis `foldr max 0 = max (reduce_max ...) 0`). -/
def coordinates_to_heatmap (num_instances : ℕ) (y_grid x_grid : ℕ → ℕ → ℝ)
    (y_coordinates x_coordinates sigma : ℕ → ℝ)
    (channel_onehot : ℕ → ℕ → ℝ) (channel_weights : Option (ℕ → ℝ))
    (r c ch : ℕ) : ℝ :=
  ((List.range num_instances).map (fun i =>
      gaussian_per_box_per_class_map y_grid x_grid y_coordinates x_coordinates
        sigma channel_onehot channel_weights i r c ch)).foldr max 0

/-- Embedding of `get_valid_keypoint_mask_for_class`. Keypoint coordinates
are `(y, x)` pairs of `Option ℝ`, `none` standing for NaN. The mask is
`class_onehot[:, class_id] * cast(not_nan[:, :, 0])`, optionally multiplied
by the instance weight; the sanitized coordinates replace NaN by `0`
unconditionally; an optional `keypoint_indices` list gathers columns of both
outputs. Result: `(mask, keypoints_nan_to_zeros)`. -/
def get_valid_keypoint_mask_for_class
    (keypoint_coordinates : ℕ → ℕ → Option ℝ × Option ℝ) (class_id : ℕ)
    (class_onehot : ℕ → ℕ → ℝ) (class_weights : Option (ℕ → ℝ))
    (keypoint_indices : Option (List ℕ)) :
    (ℕ → ℕ → ℝ) × (ℕ → ℕ → ℝ × ℝ) :=
  let class_mask : ℕ → ℝ := fun i => class_onehot i class_id
  let not_nan_y : ℕ → ℕ → Bool := fun i k => ((keypoint_coordinates i k).1).isSome
  let mask0 : ℕ → ℕ → ℝ := fun i k =>
    class_mask i * (if not_nan_y i k then (1 : ℝ) else 0)
  let keypoints_nan_to_zeros : ℕ → ℕ → ℝ × ℝ := fun i k =>
    (((keypoint_coordinates i k).1).getD 0, ((keypoint_coordinates i k).2).getD 0)
  let mask1 : ℕ → ℕ → ℝ :=
    match class_weights with
    | some w => fun i k => mask0 i k * w i
    | none => mask0
  match keypoint_indices with
  | some kis =>
      (fun i k => mask1 i (kis.getD k 0),
       fun i k => keypoints_nan_to_zeros i (kis.getD k 0))
  | none => (mask1, keypoints_nan_to_zeros)

/-- Row of the `boxes` tensor of `blackout_pixel_weights_by_box_regions`:
columns 0..3 are `(y_min, x_min, y_max, x_max)`. -/
structure Box where
  y_min : ℝ
  x_min : ℝ
  y_max : ℝ
  x_max : ℝ

/-- Embedding of `blackout_pixel_weights_by_box_regions` at pixel `(r, c)`:
builds the grids with `image_shape_to_grids`, computes the inclusive
in-box indicator per instance, zeroes unselected instances (`tf.where`),
reduces over the instance axis by `tf.reduce_max` — modelled in `EReal` by
`List.foldr max ⊥`, `⊥` being the reduction's value on an empty instance
axis — and returns `1 - reduced`. -/
def blackout_pixel_weights_by_box_regions (height width num_instances : ℕ)
    (boxes : ℕ → Box) (blackout : ℕ → Bool) (r c : ℕ) : EReal :=
  let y_grid : ℝ := yGridVal height width r c
  let x_grid : ℝ := xGridVal height width r c
  let in_boxes : ℕ → ℝ := fun i =>
    if (boxes i).y_min ≤ y_grid ∧ y_grid ≤ (boxes i).y_max ∧
        (boxes i).x_min ≤ x_grid ∧ x_grid ≤ (boxes i).x_max
    then 1 else 0
  let selected_in_boxes : ℕ → ℝ := fun i =>
    if blackout i then in_boxes i else 0
  let out_boxes : EReal :=
    ((List.range num_instances).map
      (fun i => ((selected_in_boxes i : ℝ) : EReal))).foldr max ⊥
  1 - out_boxes

theorem getD_map_range {α : Type} (f : ℕ → α) (n m : ℕ) (d : α) (h : m < n) :
    ((List.range n).map f).getD m d = f m := by
  rw [List.getD_eq_getElem?_getD, List.getElem?_map, List.getElem?_range h]
  rfl

theorem yGridVal_eq (height width r c : ℕ) (hr : r < height) (hc : c < width) :
    yGridVal height width r c = (r : ℝ) := by
  unfold yGridVal image_shape_to_grids
  simp only [List.map_map]
  rw [getD_map_range _ _ _ _ hr]
  simp only [Function.comp_apply, List.map_map]
  rw [getD_map_range _ _ _ _ hc]
  rfl

theorem xGridVal_eq (height width r c : ℕ) (hr : r < height) (hc : c < width) :
    xGridVal height width r c = (c : ℝ) := by
  unfold xGridVal image_shape_to_grids
  simp only [List.map_map]
  rw [getD_map_range _ _ _ _ hr]
  simp only [Function.comp_apply, List.map_map]
  rw [getD_map_range _ _ _ _ hc]

theorem foldr_max_nonneg (l : List ℝ) : 0 ≤ l.foldr max 0 := by
  induction l with
  | nil => exact le_refl 0
  | cons a l ih => exact le_trans ih (le_max_right a _)

theorem le_foldr_max (l : List ℝ) (a : ℝ) (h : a ∈ l) : a ≤ l.foldr max 0 := by
  induction l with
  | nil => cases h
  | cons b l ih =>
      rcases List.mem_cons.mp h with hb | hl
      · rw [hb, List.foldr_cons]; exact le_max_left b _
      · exact le_trans (ih hl) (le_max_right b _)

theorem foldr_max_eq_zero_or_mem (l : List ℝ) :
    l.foldr max 0 = 0 ∨ l.foldr max 0 ∈ l := by
  induction l with
  | nil => exact Or.inl rfl
  | cons b l ih =>
      rcases max_choice b (l.foldr max 0) with hb | hl
      · exact Or.inr (by rw [List.foldr_cons, hb]; exact List.mem_cons_self b l)
      · rcases ih with h0 | hmem
        · exact Or.inl (by rw [List.foldr_cons, hl, h0])
        · exact Or.inr (by rw [List.foldr_cons, hl]; exact List.mem_cons_of_mem b hmem)

theorem foldr_max_le (l : List ℝ) (b : ℝ) (hb : 0 ≤ b)
    (h : ∀ a ∈ l, a ≤ b) : l.foldr max 0 ≤ b := by
  induction l with
  | nil => exact hb
  | cons a l ih =>
      exact max_le (h a (List.mem_cons_self a l))
        (ih (fun x hx => h x (List.mem_cons_of_mem a hx)))

/-- C8: `image_shape_to_grids` returns two `[height, width]` real grids with
`y_grid[r][c] = r` and `x_grid[r][c] = c` (exact naturals stored as reals)
for all in-range `r`, `c`; a zero height yields empty grids and a zero width
yields empty rows rather than an error. -/
theorem image_shape_to_grids_spec (height width r c : ℕ)
    (hr : r < height) (hc : c < width) :
    (image_shape_to_grids height width).1.length = height ∧
    (image_shape_to_grids height width).2.length = height ∧
    (∀ row ∈ (image_shape_to_grids height width).1, row.length = width) ∧
    (∀ row ∈ (image_shape_to_grids height width).2, row.length = width) ∧
    yGridVal height width r c = (r : ℝ) ∧
    xGridVal height width r c = (c : ℝ) ∧
    image_shape_to_grids 0 width = ([], []) ∧
    (∀ row ∈ (image_shape_to_grids height 0).1, row = []) := by
  refine ⟨?_, ?_, ?_, ?_, yGridVal_eq height width r c hr hc,
    xGridVal_eq height width r c hr hc, ?_, ?_⟩
  · simp [image_shape_to_grids]
  · simp [image_shape_to_grids]
  · intro row hrow
    simp only [image_shape_to_grids, List.mem_map] at hrow
    obtain ⟨y, _, hy⟩ := hrow
    simp [← hy]
  · intro row hrow
    simp only [image_shape_to_grids, List.mem_map] at hrow
    obtain ⟨y, _, hy⟩ := hrow
    simp [← hy]
  · simp [image_shape_to_grids]
  · intro row hrow
    simp only [image_shape_to_grids, List.mem_map] at hrow
    obtain ⟨y, _, hy⟩ := hrow
    simp [← hy]

/-- Witness for `image_shape_to_grids_spec` at `height = 2`, `width = 3`,
pixel `(1, 2)`. -/
theorem image_shape_to_grids_spec_witness :
    (image_shape_to_grids 2 3).1.length = 2 ∧
    (image_shape_to_grids 2 3).2.length = 2 ∧
    (∀ row ∈ (image_shape_to_grids 2 3).1, row.length = 3) ∧
    (∀ row ∈ (image_shape_to_grids 2 3).2, row.length = 3) ∧
    yGridVal 2 3 1 2 = ((1 : ℕ) : ℝ) ∧
    xGridVal 2 3 1 2 = ((2 : ℕ) : ℝ) ∧
    image_shape_to_grids 0 3 = ([], []) ∧
    (∀ row ∈ (image_shape_to_grids 2 0).1, row = []) :=
  image_shape_to_grids_spec 2 3 1 2 (by norm_num) (by norm_num)

/-- C3: `compute_floor_offsets_with_indices` returns, for every point `j`,
indices `(floor(y_source[j]), floor(x_source[j]))` as integers and offsets
`(target - floor(source))` componentwise, the target defaulting to the source
when omitted and never being floored itself; both pairs are ordered `(y, x)`.
Concretely, source `(3.7, 2.2)` with no target gives indices `(3, 2)` and
offsets `(0.7, 0.2)`, and source `2.5` with explicit target `5.9` gives index
`2` with offset `3.9` (the unfloored target minus the floored source). -/
theorem compute_floor_offsets_with_indices_spec (y_source x_source : ℕ → ℝ)
    (y_target x_target : Option (ℕ → ℝ)) (j : ℕ) :
    (compute_floor_offsets_with_indices y_source x_source y_target x_target).2 j
      = (⌊y_source j⌋, ⌊x_source j⌋) ∧
    (compute_floor_offsets_with_indices y_source x_source y_target x_target).1 j
      = ((y_target.getD y_source) j - (⌊y_source j⌋ : ℝ),
         (x_target.getD x_source) j - (⌊x_source j⌋ : ℝ)) ∧
    (compute_floor_offsets_with_indices (fun _ => (3.7 : ℝ)) (fun _ => (2.2 : ℝ))
        none none).2 0 = (3, 2) ∧
    (compute_floor_offsets_with_indices (fun _ => (3.7 : ℝ)) (fun _ => (2.2 : ℝ))
        none none).1 0 = (0.7, 0.2) ∧
    (compute_floor_offsets_with_indices (fun _ => (2.5 : ℝ)) (fun _ => (2.5 : ℝ))
        (some (fun _ => (5.9 : ℝ))) (some (fun _ => (5.9 : ℝ)))).2 0 = (2, 2) ∧
    (compute_floor_offsets_with_indices (fun _ => (2.5 : ℝ)) (fun _ => (2.5 : ℝ))
        (some (fun _ => (5.9 : ℝ))) (some (fun _ => (5.9 : ℝ)))).1 0 = (3.9, 3.9) := by
  have h37 : ⌊(3.7 : ℝ)⌋ = 3 := by rw [Int.floor_eq_iff]; norm_num
  have h22 : ⌊(2.2 : ℝ)⌋ = 2 := by rw [Int.floor_eq_iff]; norm_num
  have h25 : ⌊(2.5 : ℝ)⌋ = 2 := by rw [Int.floor_eq_iff]; norm_num
  refine ⟨rfl, rfl, ?_, ?_, ?_, ?_⟩
  · simp [compute_floor_offsets_with_indices, h37, h22]
  · simp only [compute_floor_offsets_with_indices, Option.getD_none, h37, h22]
    norm_num
  · simp [compute_floor_offsets_with_indices, h25]
  · simp only [compute_floor_offsets_with_indices, Option.getD_some, h25]
    norm_num

/-- C2: the per-instance Gaussian response of `coordinates_to_heatmap` with
`sigma i > 0` equals `exp(-((r' - floor(y))^2 + (c' - floor(x))^2) / (2 * sigma^2))`
where `r'`, `c'` are the grid values at the pixel — the instance center is
floored before the squared distance is taken — and at a pixel whose grid
coordinates equal the floored center the response is exactly `1`. -/
theorem gaussian_map_spec (y_grid x_grid : ℕ → ℕ → ℝ)
    (y_coordinates x_coordinates sigma : ℕ → ℝ) (i r c : ℕ)
    (hsigma : 0 < sigma i) :
    gaussian_map y_grid x_grid y_coordinates x_coordinates sigma i r c =
      Real.exp (-((y_grid r c - (⌊y_coordinates i⌋ : ℝ)) ^ 2 +
          (x_grid r c - (⌊x_coordinates i⌋ : ℝ)) ^ 2) / (2 * sigma i ^ 2)) ∧
    (y_grid r c = (⌊y_coordinates i⌋ : ℝ) →
      x_grid r c = (⌊x_coordinates i⌋ : ℝ) →
      gaussian_map y_grid x_grid y_coordinates x_coordinates sigma i r c = 1) := by
  constructor
  · simp only [gaussian_map]
    rw [Real.exp_eq_exp]
    ring
  · intro h1 h2
    simp only [gaussian_map]
    rw [h1, h2]
    simp [Real.exp_zero]

/-- Witness for `gaussian_map_spec`: identity grids, a single center at the
origin, `sigma = 1`; the response at pixel `(0, 0)` is exactly `1`. -/
theorem gaussian_map_spec_witness :
    gaussian_map (fun r _ => (r : ℝ)) (fun _ c => (c : ℝ))
      (fun _ => 0) (fun _ => 0) (fun _ => 1) 0 0 0 =
      Real.exp (-((((0 : ℕ) : ℝ) - (⌊(0 : ℝ)⌋ : ℝ)) ^ 2 +
          (((0 : ℕ) : ℝ) - (⌊(0 : ℝ)⌋ : ℝ)) ^ 2) / (2 * (1 : ℝ) ^ 2)) ∧
    gaussian_map (fun r _ => (r : ℝ)) (fun _ c => (c : ℝ))
      (fun _ => 0) (fun _ => 0) (fun _ => 1) 0 0 0 = 1 := by
  have h := gaussian_map_spec (fun r _ => (r : ℝ)) (fun _ c => (c : ℝ))
    (fun _ => 0) (fun _ => 0) (fun _ => 1) 0 0 0 (by norm_num)
  exact ⟨h.1, h.2 (by norm_num) (by norm_num)⟩

/-- C1: with at least one instance and nonnegative per-instance contributions,
the heatmap value at any pixel and channel is the greatest of the
per-instance (weighted) Gaussian contributions — an element-wise maximum,
never a sum: whenever two distinct instances contribute strictly positively,
the output is strictly below the sum of all contributions. -/
theorem coordinates_to_heatmap_is_max (num_instances : ℕ)
    (y_grid x_grid : ℕ → ℕ → ℝ) (y_coordinates x_coordinates sigma : ℕ → ℝ)
    (channel_onehot : ℕ → ℕ → ℝ) (channel_weights : Option (ℕ → ℝ))
    (r c ch : ℕ) (hN : 1 ≤ num_instances)
    (hnn : ∀ i, i < num_instances →
      0 ≤ gaussian_per_box_per_class_map y_grid x_grid y_coordinates
        x_coordinates sigma channel_onehot channel_weights i r c ch) :
    IsGreatest
      ((fun i => gaussian_per_box_per_class_map y_grid x_grid y_coordinates
          x_coordinates sigma channel_onehot channel_weights i r c ch) ''
        (Set.Iio num_instances))
      (coordinates_to_heatmap num_instances y_grid x_grid y_coordinates
        x_coordinates sigma channel_onehot channel_weights r c ch) ∧
    (∀ i j, i < num_instances → j < num_instances → i ≠ j →
      0 < gaussian_per_box_per_class_map y_grid x_grid y_coordinates
          x_coordinates sigma channel_onehot channel_weights i r c ch →
      0 < gaussian_per_box_per_class_map y_grid x_grid y_coordinates
          x_coordinates sigma channel_onehot channel_weights j r c ch →
      coordinates_to_heatmap num_instances y_grid x_grid y_coordinates
          x_coordinates sigma channel_onehot channel_weights r c ch <
        ∑ k in Finset.range num_instances,
          gaussian_per_box_per_class_map y_grid x_grid y_coordinates
            x_coordinates sigma channel_onehot channel_weights k r c ch) := by
  set f : ℕ → ℝ := fun i => gaussian_per_box_per_class_map y_grid x_grid
    y_coordinates x_coordinates sigma channel_onehot channel_weights i r c ch
    with hf
  set L : List ℝ := (List.range num_instances).map f with hL
  have hheat : coordinates_to_heatmap num_instances y_grid x_grid y_coordinates
      x_coordinates sigma channel_onehot channel_weights r c ch =
      L.foldr max 0 := rfl
  have hmemL : ∀ i, i < num_instances → f i ∈ L := by
    intro i hi
    exact List.mem_map.mpr ⟨i, List.mem_range.mpr hi, rfl⟩
  have hgreatest : IsGreatest (f '' (Set.Iio num_instances)) (L.foldr max 0) := by
    constructor
    · rcases foldr_max_eq_zero_or_mem L with h0 | hmem
      · have h00 : f 0 ≤ 0 := h0 ▸ le_foldr_max L (f 0) (hmemL 0 hN)
        have hf0 : f 0 = 0 := le_antisymm h00 (hnn 0 hN)
        exact ⟨0, Set.mem_Iio.mpr hN, by rw [hf0, h0]⟩
      · obtain ⟨i, hi, hfi⟩ := List.mem_map.mp hmem
        exact ⟨i, Set.mem_Iio.mpr (List.mem_range.mp hi), hfi⟩
    · rintro v ⟨i, hi, rfl⟩
      exact le_foldr_max L (f i) (hmemL i (Set.mem_Iio.mp hi))
  refine ⟨hheat ▸ hgreatest, ?_⟩
  intro i j hi hj hij hpi hpj
  obtain ⟨k, hk, hfk⟩ := hgreatest.1
  have hkN : k < num_instances := Set.mem_Iio.mp hk
  set m : ℕ := if k = i then j else i with hm
  have hmN : m < num_instances := by
    by_cases hki : k = i
    · simp [hm, hki, hj]
    · simp [hm, hki, hi]
  have hmk : m ≠ k := by
    by_cases hki : k = i
    · have hmj : m = j := by rw [hm, if_pos hki]
      rw [hmj, hki]
      exact Ne.symm hij
    · have hmi : m = i := by rw [hm, if_neg hki]
      rw [hmi]
      exact fun h => hki h.symm
  have hpm : 0 < f m := by
    by_cases hki : k = i
    · simpa [hm, hki] using hpj
    · simpa [hm, hki] using hpi
  have hsum : f k + ∑ x in (Finset.range num_instances).erase k, f x =
      ∑ x in Finset.range num_instances, f x :=
    Finset.add_sum_erase (Finset.range num_instances) f
      (Finset.mem_range.mpr hkN)
  have herase : f m ≤ ∑ x in (Finset.range num_instances).erase k, f x :=
    Finset.single_le_sum
      (fun x hx => hnn x (Finset.mem_range.mp (Finset.mem_of_mem_erase hx)))
      (Finset.mem_erase.mpr ⟨hmk, Finset.mem_range.mpr hmN⟩)
  have hlt : L.foldr max 0 < ∑ x in Finset.range num_instances, f x := by
    calc L.foldr max 0 = f k := hfk.symm
      _ < f k + f m := lt_add_of_pos_right (f k) hpm
      _ ≤ f k + ∑ x in (Finset.range num_instances).erase k, f x :=
          add_le_add_left herase (f k)
      _ = ∑ x in Finset.range num_instances, f x := hsum
  exact hheat ▸ hlt

/-- Witness for `coordinates_to_heatmap_is_max`: two identical instances at
the origin of the same (single) class, identity grids, `sigma = 1`; the
heatmap value is the greatest contribution and is strictly below the sum of
the two contributions. -/
theorem coordinates_to_heatmap_is_max_witness :
    IsGreatest
      ((fun i => gaussian_per_box_per_class_map (fun r _ => (r : ℝ))
          (fun _ c => (c : ℝ)) (fun _ => 0) (fun _ => 0) (fun _ => 1)
          (fun _ _ => 1) none i 0 0 0) '' (Set.Iio 2))
      (coordinates_to_heatmap 2 (fun r _ => (r : ℝ)) (fun _ c => (c : ℝ))
        (fun _ => 0) (fun _ => 0) (fun _ => 1) (fun _ _ => 1) none 0 0 0) ∧
    coordinates_to_heatmap 2 (fun r _ => (r : ℝ)) (fun _ c => (c : ℝ))
        (fun _ => 0) (fun _ => 0) (fun _ => 1) (fun _ _ => 1) none 0 0 0 <
      gaussian_per_box_per_class_map (fun r _ => (r : ℝ)) (fun _ c => (c : ℝ))
        (fun _ => 0) (fun _ => 0) (fun _ => 1) (fun _ _ => 1) none 0 0 0 0 +
      gaussian_per_box_per_class_map (fun r _ => (r : ℝ)) (fun _ c => (c : ℝ))
        (fun _ => 0) (fun _ => 0) (fun _ => 1) (fun _ _ => 1) none 1 0 0 0 := by
  have h := coordinates_to_heatmap_is_max 2 (fun r _ => (r : ℝ))
    (fun _ c => (c : ℝ)) (fun _ => 0) (fun _ => 0) (fun _ => 1)
    (fun _ _ => 1) none 0 0 0 (by norm_num)
    (fun i _ => by
      simp only [gaussian_per_box_per_class_map, gaussian_map]
      positivity)
  have hpos : ∀ i : ℕ, 0 < gaussian_per_box_per_class_map (fun r _ => (r : ℝ))
      (fun _ c => (c : ℝ)) (fun _ => 0) (fun _ => 0) (fun _ => 1)
      (fun _ _ => 1) none i 0 0 0 := by
    intro i
    simp only [gaussian_per_box_per_class_map, gaussian_map]
    positivity
  have hsum2 : ∑ k in Finset.range 2,
      gaussian_per_box_per_class_map (fun r _ => (r : ℝ)) (fun _ c => (c : ℝ))
        (fun _ => 0) (fun _ => 0) (fun _ => 1) (fun _ _ => 1) none k 0 0 0 =
      gaussian_per_box_per_class_map (fun r _ => (r : ℝ)) (fun _ c => (c : ℝ))
        (fun _ => 0) (fun _ => 0) (fun _ => 1) (fun _ _ => 1) none 0 0 0 0 +
      gaussian_per_box_per_class_map (fun r _ => (r : ℝ)) (fun _ c => (c : ℝ))
        (fun _ => 0) (fun _ => 0) (fun _ => 1) (fun _ _ => 1) none 1 0 0 0 := by
    rw [Finset.sum_range_succ, Finset.sum_range_one]
  exact ⟨h.1, hsum2 ▸ h.2 0 1 (by norm_num) (by norm_num) (by norm_num)
    (hpos 0) (hpos 1)⟩

/-- C5: every heatmap entry is nonnegative for every input; with zero
instances the value is exactly `0` (the empty-axis maximum is clamped to a
zero floor); and when `channel_weights` is omitted and the one-hot entries
lie in `[0, 1]`, every entry lies in `[0, 1]`. -/
theorem coordinates_to_heatmap_bounds (num_instances : ℕ)
    (y_grid x_grid : ℕ → ℕ → ℝ) (y_coordinates x_coordinates sigma : ℕ → ℝ)
    (channel_onehot : ℕ → ℕ → ℝ) (channel_weights : Option (ℕ → ℝ))
    (r c ch : ℕ) :
    0 ≤ coordinates_to_heatmap num_instances y_grid x_grid y_coordinates
      x_coordinates sigma channel_onehot channel_weights r c ch ∧
    (num_instances = 0 → coordinates_to_heatmap num_instances y_grid x_grid
      y_coordinates x_coordinates sigma channel_onehot channel_weights r c ch
        = 0) ∧
    ((∀ i ch2, 0 ≤ channel_onehot i ch2 ∧ channel_onehot i ch2 ≤ 1) →
      coordinates_to_heatmap num_instances y_grid x_grid y_coordinates
        x_coordinates sigma channel_onehot none r c ch ≤ 1) := by
  refine ⟨foldr_max_nonneg _, ?_, ?_⟩
  · intro h
    subst h
    rfl
  · intro h01
    apply foldr_max_le _ 1 zero_le_one
    intro a ha
    obtain ⟨i, _, rfl⟩ := List.mem_map.mp ha
    show gaussian_map y_grid x_grid y_coordinates x_coordinates sigma i r c *
      channel_onehot i ch ≤ 1
    have hg1 : gaussian_map y_grid x_grid y_coordinates x_coordinates sigma
        i r c ≤ 1 := by
      apply Real.exp_le_one_iff.mpr
      apply div_nonpos_of_nonpos_of_nonneg
      · have := add_nonneg (sq_nonneg (x_grid r c - (⌊x_coordinates i⌋ : ℝ)))
          (sq_nonneg (y_grid r c - (⌊y_coordinates i⌋ : ℝ)))
        linarith
      · nlinarith [mul_self_nonneg (sigma i)]
    exact mul_le_one₀ hg1 (h01 i ch).1 (h01 i ch).2

/-- Witness for `coordinates_to_heatmap_bounds`: zero instances, a weighted
call is nonnegative and exactly `0`, and an unweighted call with one-hot
entries in `[0, 1]` is bounded by `1`. -/
theorem coordinates_to_heatmap_bounds_witness :
    0 ≤ coordinates_to_heatmap 0 (fun r _ => (r : ℝ)) (fun _ c => (c : ℝ))
      (fun _ => 0) (fun _ => 0) (fun _ => 1) (fun _ _ => 1)
      (some (fun _ => 2)) 0 0 0 ∧
    coordinates_to_heatmap 0 (fun r _ => (r : ℝ)) (fun _ c => (c : ℝ))
      (fun _ => 0) (fun _ => 0) (fun _ => 1) (fun _ _ => 1)
      (some (fun _ => 2)) 0 0 0 = 0 ∧
    coordinates_to_heatmap 0 (fun r _ => (r : ℝ)) (fun _ c => (c : ℝ))
      (fun _ => 0) (fun _ => 0) (fun _ => 1) (fun _ _ => 1) none 0 0 0 ≤ 1 := by
  obtain ⟨h1, h2, h3⟩ := coordinates_to_heatmap_bounds 0 (fun r _ => (r : ℝ))
    (fun _ c => (c : ℝ)) (fun _ => 0) (fun _ => 0) (fun _ => 1)
    (fun _ _ => 1) (some (fun _ => 2)) 0 0 0
  exact ⟨h1, h2 rfl, h3 (fun i ch2 => ⟨zero_le_one, le_refl 1⟩)⟩

/-- C4 (counterexample): with a soft class membership of `1/2` (and the
weight defaulting to `1` since `class_weights` is omitted) the mask cell is
`1/2`, which is neither `0` nor the instance weight `1` — so the mask is not
always in the set consisting of `0` and the instance's weight. -/
theorem keypoint_mask_soft_membership_counterexample :
    (get_valid_keypoint_mask_for_class (fun _ _ => (some 1, some 1)) 0
      (fun _ _ => (1 / 2 : ℝ)) none none).1 0 0 = 1 / 2 ∧
    ((1 / 2 : ℝ) ≠ 0) ∧ ((1 / 2 : ℝ) ≠ 1) := by
  refine ⟨?_, by norm_num, by norm_num⟩
  simp [get_valid_keypoint_mask_for_class]

/-- C4 (amended): every cell of the returned mask is either `0` or exactly
the product of the instance's class-membership value
`class_onehot[i, class_id]` and the instance's weight (the weight defaulting
to `1` when `class_weights` is omitted); when the membership is a hard `0/1`
value this reduces to the spec's "0 or weight". -/
theorem keypoint_mask_zero_or_weighted_membership
    (keypoint_coordinates : ℕ → ℕ → Option ℝ × Option ℝ) (class_id : ℕ)
    (class_onehot : ℕ → ℕ → ℝ) (class_weights : Option (ℕ → ℝ))
    (keypoint_indices : Option (List ℕ)) (i k : ℕ) :
    (get_valid_keypoint_mask_for_class keypoint_coordinates class_id
      class_onehot class_weights keypoint_indices).1 i k = 0 ∨
    (get_valid_keypoint_mask_for_class keypoint_coordinates class_id
      class_onehot class_weights keypoint_indices).1 i k =
      class_onehot i class_id * (class_weights.getD (fun _ => 1)) i := by
  rcases keypoint_indices with _ | kis <;> rcases class_weights with _ | w
  · show class_onehot i class_id *
        (if ((keypoint_coordinates i k).1).isSome then (1 : ℝ) else 0) = 0 ∨
      class_onehot i class_id *
        (if ((keypoint_coordinates i k).1).isSome then (1 : ℝ) else 0) =
        class_onehot i class_id * 1
    by_cases h : ((keypoint_coordinates i k).1).isSome
    · exact Or.inr (by rw [if_pos h])
    · exact Or.inl (by rw [if_neg h, mul_zero])
  · show class_onehot i class_id *
        (if ((keypoint_coordinates i k).1).isSome then (1 : ℝ) else 0) * w i
          = 0 ∨
      class_onehot i class_id *
        (if ((keypoint_coordinates i k).1).isSome then (1 : ℝ) else 0) * w i =
        class_onehot i class_id * w i
    by_cases h : ((keypoint_coordinates i k).1).isSome
    · exact Or.inr (by rw [if_pos h, mul_one])
    · exact Or.inl (by rw [if_neg h, mul_zero, zero_mul])
  · show class_onehot i class_id *
        (if ((keypoint_coordinates i (kis.getD k 0)).1).isSome then (1 : ℝ)
          else 0) = 0 ∨
      class_onehot i class_id *
        (if ((keypoint_coordinates i (kis.getD k 0)).1).isSome then (1 : ℝ)
          else 0) = class_onehot i class_id * 1
    by_cases h : ((keypoint_coordinates i (kis.getD k 0)).1).isSome
    · exact Or.inr (by rw [if_pos h])
    · exact Or.inl (by rw [if_neg h, mul_zero])
  · show class_onehot i class_id *
        (if ((keypoint_coordinates i (kis.getD k 0)).1).isSome then (1 : ℝ)
          else 0) * w i = 0 ∨
      class_onehot i class_id *
        (if ((keypoint_coordinates i (kis.getD k 0)).1).isSome then (1 : ℝ)
          else 0) * w i = class_onehot i class_id * w i
    by_cases h : ((keypoint_coordinates i (kis.getD k 0)).1).isSome
    · exact Or.inr (by rw [if_pos h, mul_one])
    · exact Or.inl (by rw [if_neg h, mul_zero, zero_mul])

/-- C7: a keypoint whose coordinates are NaN (both `y` and `x` together)
yields a zero mask cell and a sanitized keypoint `(0, 0)`, regardless of the
instance's class membership and weight. -/
theorem keypoint_mask_nan_keypoint
    (keypoint_coordinates : ℕ → ℕ → Option ℝ × Option ℝ) (class_id : ℕ)
    (class_onehot : ℕ → ℕ → ℝ) (class_weights : Option (ℕ → ℝ)) (i k : ℕ)
    (h : keypoint_coordinates i k = (none, none)) :
    (get_valid_keypoint_mask_for_class keypoint_coordinates class_id
      class_onehot class_weights none).1 i k = 0 ∧
    (get_valid_keypoint_mask_for_class keypoint_coordinates class_id
      class_onehot class_weights none).2 i k = (0, 0) := by
  rcases class_weights with _ | w <;>
    simp [get_valid_keypoint_mask_for_class, h]

/-- Witness for `keypoint_mask_nan_keypoint`: a NaN keypoint with a nonzero
class membership of `5` still yields mask `0` and sanitized `(0, 0)`. -/
theorem keypoint_mask_nan_keypoint_witness :
    (get_valid_keypoint_mask_for_class
      (fun _ _ => ((none : Option ℝ), (none : Option ℝ))) 0
      (fun _ _ => (5 : ℝ)) none none).1 0 0 = 0 ∧
    (get_valid_keypoint_mask_for_class
      (fun _ _ => ((none : Option ℝ), (none : Option ℝ))) 0
      (fun _ _ => (5 : ℝ)) none none).2 0 0 = (0, 0) :=
  keypoint_mask_nan_keypoint _ 0 _ none 0 0 rfl

/-- C9: a keypoint with a finite `y` but NaN `x` is not masked out — the
mask cell equals the full class-membership value times the weight, because
NaN-ness is tested only on coordinate channel 0 — while the sanitized output
keeps `y` and silently replaces `x` by `0`. -/
theorem keypoint_mask_nan_x_only
    (keypoint_coordinates : ℕ → ℕ → Option ℝ × Option ℝ) (class_id : ℕ)
    (class_onehot : ℕ → ℕ → ℝ) (class_weights : Option (ℕ → ℝ)) (i k : ℕ)
    (y : ℝ) (hy : (keypoint_coordinates i k).1 = some y)
    (hx : (keypoint_coordinates i k).2 = none) :
    (get_valid_keypoint_mask_for_class keypoint_coordinates class_id
      class_onehot class_weights none).1 i k =
      class_onehot i class_id * (class_weights.getD (fun _ => 1)) i ∧
    ((get_valid_keypoint_mask_for_class keypoint_coordinates class_id
      class_onehot class_weights none).2 i k).1 = y ∧
    ((get_valid_keypoint_mask_for_class keypoint_coordinates class_id
      class_onehot class_weights none).2 i k).2 = 0 := by
  rcases class_weights with _ | w <;>
    simp [get_valid_keypoint_mask_for_class, hy, hx]

/-- Witness for `keypoint_mask_nan_x_only`: membership `3`, weight `2`,
keypoint `(some 2.5, none)`; the mask is `3 * 2` and the sanitized pair is
`(2.5, 0)`. -/
theorem keypoint_mask_nan_x_only_witness :
    (get_valid_keypoint_mask_for_class
      (fun _ _ => ((some (2.5 : ℝ)), (none : Option ℝ))) 0
      (fun _ _ => (3 : ℝ)) (some (fun _ => (2 : ℝ))) none).1 0 0 = 3 * 2 ∧
    ((get_valid_keypoint_mask_for_class
      (fun _ _ => ((some (2.5 : ℝ)), (none : Option ℝ))) 0
      (fun _ _ => (3 : ℝ)) (some (fun _ => (2 : ℝ))) none).2 0 0).1 = 2.5 ∧
    ((get_valid_keypoint_mask_for_class
      (fun _ _ => ((some (2.5 : ℝ)), (none : Option ℝ))) 0
      (fun _ _ => (3 : ℝ)) (some (fun _ => (2 : ℝ))) none).2 0 0).2 = 0 :=
  keypoint_mask_nan_x_only _ 0 _ (some (fun _ => (2 : ℝ))) 0 0 (2.5 : ℝ)
    rfl rfl

/-- C6 (evaluation at the failing input): with zero boxes the output of
`blackout_pixel_weights_by_box_regions` is `1 - reduce_max(empty) = 1 - ⊥`,
which is `⊤` (positive infinity), not the all-ones mask the claim promises. -/
theorem blackout_empty_instances_is_top :
    blackout_pixel_weights_by_box_regions 2 2 0 (fun _ => Box.mk 0 0 0 0)
      (fun _ => false) 0 0 = ⊤ ∧
    ((⊤ : EReal) ≠ ((1 : ℝ) : EReal)) := by
  constructor
  · have h : blackout_pixel_weights_by_box_regions 2 2 0
        (fun _ => Box.mk 0 0 0 0) (fun _ => false) 0 0 = (1 : EReal) - ⊥ := rfl
    rw [h, ← EReal.coe_one]
    exact EReal.coe_sub_bot 1
  · exact EReal.top_ne_coe 1

theorem blackout_single_box (height width : ℕ) (b : Box) (r c : ℕ)
    (hr : r < height) (hc : c < width) :
    blackout_pixel_weights_by_box_regions height width 1 (fun _ => b)
        (fun _ => true) r c =
      (((if b.y_min ≤ (r : ℝ) ∧ (r : ℝ) ≤ b.y_max ∧ b.x_min ≤ (c : ℝ) ∧
          (c : ℝ) ≤ b.x_max then (0 : ℝ) else 1) : ℝ) : EReal) := by
  unfold blackout_pixel_weights_by_box_regions
  rw [show List.range 1 = [0] from rfl]
  simp only [List.map_cons, List.map_nil, List.foldr_cons, List.foldr_nil]
  rw [yGridVal_eq height width r c hr hc, xGridVal_eq height width r c hr hc]
  simp only [if_true]
  rw [max_eq_left bot_le, ← EReal.coe_one, ← EReal.coe_sub,
    EReal.coe_eq_coe_iff]
  split_ifs <;> norm_num

theorem ereal_le_foldr_max (l : List EReal) (a : EReal) (h : a ∈ l) :
    a ≤ l.foldr max ⊥ := by
  induction l with
  | nil => cases h
  | cons b l ih =>
      rcases List.mem_cons.mp h with hb | hl
      · rw [hb, List.foldr_cons]; exact le_max_left b _
      · exact le_trans (ih hl) (le_max_right b _)

theorem ereal_foldr_max_le (l : List EReal) (b : EReal)
    (h : ∀ a ∈ l, a ≤ b) : l.foldr max ⊥ ≤ b := by
  induction l with
  | nil => exact bot_le
  | cons a l ih =>
      exact max_le (h a (List.mem_cons_self a l))
        (ih (fun x hx => h x (List.mem_cons_of_mem a hx)))

/-- Characterization of `blackout_pixel_weights_by_box_regions` on a
nonempty instance set: the output at an in-range pixel is `0` exactly when
the pixel lies (inclusively) inside some selected box, and `1` otherwise
(in particular all `1` when no box is selected). -/
theorem blackout_box_union_characterization (height width num_instances : ℕ)
    (boxes : ℕ → Box) (blackout : ℕ → Bool) (r c : ℕ)
    (hN : 1 ≤ num_instances) (hr : r < height) (hc : c < width) :
    (blackout_pixel_weights_by_box_regions height width num_instances boxes
        blackout r c = ((0 : ℝ) : EReal) ↔
      ∃ i, i < num_instances ∧ blackout i = true ∧
        (boxes i).y_min ≤ (r : ℝ) ∧ (r : ℝ) ≤ (boxes i).y_max ∧
        (boxes i).x_min ≤ (c : ℝ) ∧ (c : ℝ) ≤ (boxes i).x_max) ∧
    (blackout_pixel_weights_by_box_regions height width num_instances boxes
        blackout r c = ((1 : ℝ) : EReal) ↔
      ¬ ∃ i, i < num_instances ∧ blackout i = true ∧
        (boxes i).y_min ≤ (r : ℝ) ∧ (r : ℝ) ≤ (boxes i).y_max ∧
        (boxes i).x_min ≤ (c : ℝ) ∧ (c : ℝ) ≤ (boxes i).x_max) := by
  classical
  unfold blackout_pixel_weights_by_box_regions
  rw [yGridVal_eq height width r c hr hc, xGridVal_eq height width r c hr hc]
  dsimp only
  set L : List EReal := (List.range num_instances).map (fun i =>
    (((if blackout i then
        (if (boxes i).y_min ≤ (r : ℝ) ∧ (r : ℝ) ≤ (boxes i).y_max ∧
            (boxes i).x_min ≤ (c : ℝ) ∧ (c : ℝ) ≤ (boxes i).x_max
          then (1 : ℝ) else 0)
        else 0) : ℝ) : EReal)) with hL
  by_cases hP : ∃ i, i < num_instances ∧ blackout i = true ∧
      (boxes i).y_min ≤ (r : ℝ) ∧ (r : ℝ) ≤ (boxes i).y_max ∧
      (boxes i).x_min ≤ (c : ℝ) ∧ (c : ℝ) ≤ (boxes i).x_max
  · have hfold : L.foldr max ⊥ = ((1 : ℝ) : EReal) := by
      obtain ⟨i, hiN, hb, hin⟩ := hP
      apply le_antisymm
      · apply ereal_foldr_max_le
        intro a ha
        obtain ⟨j, _, rfl⟩ := List.mem_map.mp ha
        rw [EReal.coe_le_coe_iff]
        split_ifs <;> norm_num
      · refine ereal_le_foldr_max L _ (List.mem_map.mpr
          ⟨i, List.mem_range.mpr hiN, ?_⟩)
        rw [if_pos hb, if_pos hin]
    rw [hfold, ← EReal.coe_one, ← EReal.coe_sub]
    constructor
    · rw [EReal.coe_eq_coe_iff]
      exact iff_of_true (by norm_num) hP
    · rw [EReal.coe_eq_coe_iff]
      exact iff_of_false (by norm_num) (fun hn => hn hP)
  · have hfold : L.foldr max ⊥ = ((0 : ℝ) : EReal) := by
      apply le_antisymm
      · apply ereal_foldr_max_le
        intro a ha
        obtain ⟨j, hj, rfl⟩ := List.mem_map.mp ha
        rw [EReal.coe_le_coe_iff]
        split_ifs with hb hcond
        · exact absurd ⟨j, List.mem_range.mp hj, hb, hcond⟩ hP
        · exact le_refl 0
        · exact le_refl 0
      · refine le_trans (le_of_eq ?_) (ereal_le_foldr_max L _
          (List.mem_map.mpr ⟨0, List.mem_range.mpr hN, rfl⟩))
        split_ifs with hb hcond
        · exact absurd ⟨0, hN, hb, hcond⟩ hP
        · rfl
        · rfl
    rw [hfold, ← EReal.coe_one, ← EReal.coe_sub]
    constructor
    · rw [EReal.coe_eq_coe_iff]
      exact iff_of_false (by norm_num) hP
    · rw [EReal.coe_eq_coe_iff]
      exact iff_of_true (by norm_num) hP

/-- C10: a selected box with inverted bounds contains no grid pixel and
blacks out nothing (the whole mask stays `1`), while a selected degenerate
box whose four bounds coincide on integer coordinates `(a, b)` blacks out
exactly the single pixel at `(a, b)`, because both bound comparisons are
inclusive. -/
theorem blackout_inverted_and_degenerate_boxes (height width : ℕ)
    (binv : Box) (hinv : binv.y_max < binv.y_min ∨ binv.x_max < binv.x_min)
    (a b r c : ℕ) (hr : r < height) (hc : c < width) :
    blackout_pixel_weights_by_box_regions height width 1 (fun _ => binv)
      (fun _ => true) r c = ((1 : ℝ) : EReal) ∧
    (blackout_pixel_weights_by_box_regions height width 1
        (fun _ => Box.mk (a : ℝ) (b : ℝ) (a : ℝ) (b : ℝ)) (fun _ => true) r c
        = ((0 : ℝ) : EReal) ↔ (r = a ∧ c = b)) := by
  constructor
  · rw [blackout_single_box height width binv r c hr hc]
    have hcond : ¬(binv.y_min ≤ (r : ℝ) ∧ (r : ℝ) ≤ binv.y_max ∧
        binv.x_min ≤ (c : ℝ) ∧ (c : ℝ) ≤ binv.x_max) := by
      rintro ⟨h1, h2, h3, h4⟩
      rcases hinv with h | h
      · linarith
      · linarith
    rw [if_neg hcond]
  · rw [blackout_single_box height width _ r c hr hc]
    dsimp only
    constructor
    · intro h
      by_cases hcond : ((a : ℝ) ≤ (r : ℝ) ∧ (r : ℝ) ≤ (a : ℝ) ∧
          (b : ℝ) ≤ (c : ℝ) ∧ (c : ℝ) ≤ (b : ℝ))
      · obtain ⟨h1, h2, h3, h4⟩ := hcond
        exact ⟨Nat.cast_inj.mp (le_antisymm h2 h1),
          Nat.cast_inj.mp (le_antisymm h4 h3)⟩
      · rw [if_neg hcond] at h
        exact absurd (EReal.coe_eq_coe_iff.mp h) (by norm_num)
    · rintro ⟨rfl, rfl⟩
      rw [if_pos ⟨le_refl _, le_refl _, le_refl _, le_refl _⟩]

/-- Witness for `blackout_inverted_and_degenerate_boxes`: on a 2×2 grid, the
inverted box `(1, 0, 0, 0)` leaves pixel `(1, 1)` at `1`, and the degenerate
box `(1, 1, 1, 1)` blacks out pixel `(1, 1)`. -/
theorem blackout_inverted_and_degenerate_boxes_witness :
    blackout_pixel_weights_by_box_regions 2 2 1 (fun _ => Box.mk 1 0 0 0)
      (fun _ => true) 1 1 = ((1 : ℝ) : EReal) ∧
    (blackout_pixel_weights_by_box_regions 2 2 1
        (fun _ => Box.mk ((1 : ℕ) : ℝ) ((1 : ℕ) : ℝ) ((1 : ℕ) : ℝ)
          ((1 : ℕ) : ℝ)) (fun _ => true) 1 1
        = ((0 : ℝ) : EReal) ↔ ((1 : ℕ) = 1 ∧ (1 : ℕ) = 1)) :=
  blackout_inverted_and_degenerate_boxes 2 2 (Box.mk 1 0 0 0)
    (Or.inl (by norm_num)) 1 1 1 1 (by norm_num) (by norm_num)

end TargetAssignerUtils
